import Mathlib

/-!
Verification of the coffee-cooling simulation core.

The program models a liquid cooling toward ambient temperature under
Newton's law of cooling, with one discrete mixing event (adding creamer)
that changes the trajectory through a volume-weighted mixing rule.

The definitions below are a shallow embedding of the physics-engine
functions of `Coffee_Analysis.py`:
`to_celsius`, `to_fahrenheit`, `newtons_law_cooling`,
`simulate_creamer_addition`, `calculate_initial_equilibrium` and
`find_crossing_time`.  Sample arrays become `List ℝ`; the numpy boolean
masks `t_array <= t_add` / `t_array > t_add` become `List.filter`; the
`len(t_before) == 0` test becomes a match on `List.getLast?` (nonempty
lists are exactly those with a last element, and the source only uses
`T_before[-1]`, the value at the last before-sample).
-/

namespace CoffeeAnalysis

/-- Source `to_celsius`: `(f - 32) * 5.0 / 9.0`. -/
noncomputable def to_celsius (f : ℝ) : ℝ := (f - 32) * 5 / 9

/-- Source `to_fahrenheit`: `(c * 9.0 / 5.0) + 32`. -/
noncomputable def to_fahrenheit (c : ℝ) : ℝ := c * 9 / 5 + 32

/-- Source `newtons_law_cooling`: `Ta + (T0 - Ta) * np.exp(-k * t)`. -/
noncomputable def newtons_law_cooling (T0 Ta k t : ℝ) : ℝ :=
  Ta + (T0 - Ta) * Real.exp (-k * t)

/-- Source `calculate_initial_equilibrium`: heat-capacity-weighted blend
`(T0_liquid * C_liquid + T0_cup * C_cup) / (C_cup + C_liquid)` with
`C_liquid = m_liquid * c_liquid`, `C_cup = m_cup * c_cup`. -/
noncomputable def calculate_initial_equilibrium
    (T0_liquid m_liquid c_liquid T0_cup m_cup c_cup : ℝ) : ℝ :=
  let C_liquid := m_liquid * c_liquid
  let C_cup := m_cup * c_cup
  (T0_liquid * C_liquid + T0_cup * C_cup) / (C_cup + C_liquid)

/-- Source `simulate_creamer_addition`.  Phase 1 filters the samples
`t <= t_add` and cools them with the original parameters; if that set is
empty (adding at the very start) the whole array is cooled from the
volume-weighted mixture of `T0_coffee` and the creamer; otherwise the
pre-mix temperature is the cooled value at the last before-sample
(`T_before[-1]`), the mixture is the volume-weighted average, and the
after-samples `t > t_add` are cooled from the mixture with elapsed time
`t - t_add`.  The two temperature segments are concatenated. -/
noncomputable def simulate_creamer_addition
    (T0_coffee Ta k : ℝ) (t_array : List ℝ)
    (T_creamer v_creamer v_coffee t_add : ℝ) : List ℝ :=
  let t_before := t_array.filter (fun t => decide (t ≤ t_add))
  match t_before.getLast? with
  | none =>
      let T_mixture_start :=
        (v_coffee * T0_coffee + v_creamer * T_creamer) / (v_coffee + v_creamer)
      t_array.map (newtons_law_cooling T_mixture_start Ta k)
  | some t_last =>
      let T_coffee_at_moment := newtons_law_cooling T0_coffee Ta k t_last
      let T_mixture_start :=
        (v_coffee * T_coffee_at_moment + v_creamer * T_creamer) /
          (v_coffee + v_creamer)
      let t_after := t_array.filter (fun t => decide (t_add < t))
      t_before.map (newtons_law_cooling T0_coffee Ta k) ++
        t_after.map (fun t => newtons_law_cooling T_mixture_start Ta k (t - t_add))

/-- Source `find_crossing_time`: `None` when `np.min(y) > target`,
otherwise `t[np.argmax(y <= target)]`, i.e. the time at the first index
whose temperature is at most the target.  `np.min` on an empty array is
an error; the embedding returns `none` there (no claim touches it). -/
noncomputable def find_crossing_time (t y : List ℝ) (target : ℝ) : Option ℝ :=
  match y with
  | [] => none
  | y0 :: ys =>
      if target < List.foldl min y0 ys then none
      else t[(y0 :: ys).findIdx (fun yi => decide (yi ≤ target))]?

/-- Error kinds of the spec's design (§7); the source script has no
validation code, so these only appear in the spec-modelled operations. -/
inductive CoolingError where
  | InvalidConfiguration
  | UnreachableTarget
deriving DecidableEq

/-- A thermal body of the spec's data model: temperature, mass and
specific heat, with heat capacity `mass * specificHeat`. -/
structure ThermalBody where
  temperature : ℝ
  mass : ℝ
  specificHeat : ℝ

/-- Modelled from the spec: `equilibrium(bodyA, bodyB)` (§4.2).  The
source only has the raw formula (`calculate_initial_equilibrium`) with
no validation; the spec adds the constraint `Ca + Cb > 0`, failing with
`InvalidConfiguration` otherwise. -/
noncomputable def equilibrium (A B : ThermalBody) : Except CoolingError ℝ :=
  let Ca := A.mass * A.specificHeat
  let Cb := B.mass * B.specificHeat
  if 0 < Ca + Cb then
    Except.ok ((A.temperature * Ca + B.temperature * Cb) / (Ca + Cb))
  else Except.error CoolingError.InvalidConfiguration

/-- Modelled from the spec: `timeToReach(T0, Ta, k, Ttarget)` (§4.3), an
operation absent from the source script.  Closed form
`-ln((Ttarget - Ta)/(T0 - Ta)) / k`; fails with `UnreachableTarget` when
`(Ttarget - Ta)` and `(T0 - Ta)` have different signs (sign of zero
counted as its own sign, per the spec's `T0 = Ta = 21, target = 45`
example) or when `Ttarget = Ta` combined with `T0 = Ta`. -/
noncomputable def timeToReach (T0 Ta k Ttarget : ℝ) : Except CoolingError ℝ :=
  if Real.sign (Ttarget - Ta) ≠ Real.sign (T0 - Ta) ∨ (Ttarget = Ta ∧ T0 = Ta) then
    Except.error CoolingError.UnreachableTarget
  else
    Except.ok (-Real.log ((Ttarget - Ta) / (T0 - Ta)) / k)

/-- At `t = 0` the cooling model returns the initial temperature exactly. -/
lemma newtons_law_cooling_zero (T0 Ta k : ℝ) :
    newtons_law_cooling T0 Ta k 0 = T0 := by
  unfold newtons_law_cooling
  rw [mul_zero, Real.exp_zero, mul_one]
  ring

/-- C9: converting a temperature to the base scale and back is the
identity: `to_fahrenheit (to_celsius x) = x` (exact over the reals, so in
particular within any floating-point tolerance), and likewise the other
composition. -/
theorem roundtrip_conversion_C9 (x : ℝ) :
    to_fahrenheit (to_celsius x) = x ∧ to_celsius (to_fahrenheit x) = x := by
  constructor <;> · unfold to_celsius to_fahrenheit; ring

/-- C7: the cooling model returns exactly `T0` at `t = 0`; for `k > 0` it
is strictly decreasing on `t ≥ 0` when `T0 > Ta`, strictly increasing
when `T0 < Ta`, and constant when `T0 = Ta`. -/
theorem cooling_monotone_C7 (T0 Ta k : ℝ) (hk : 0 < k) :
    newtons_law_cooling T0 Ta k 0 = T0 ∧
    (Ta < T0 → StrictAntiOn (newtons_law_cooling T0 Ta k) (Set.Ici 0)) ∧
    (T0 < Ta → StrictMonoOn (newtons_law_cooling T0 Ta k) (Set.Ici 0)) ∧
    (T0 = Ta → ∀ t, newtons_law_cooling T0 Ta k t = Ta) := by
  refine ⟨newtons_law_cooling_zero T0 Ta k, ?_, ?_, ?_⟩
  · intro h a _ b _ hab
    unfold newtons_law_cooling
    have he : Real.exp (-k * b) < Real.exp (-k * a) :=
      Real.exp_lt_exp.mpr (by nlinarith)
    nlinarith [sub_pos.mpr h]
  · intro h a _ b _ hab
    unfold newtons_law_cooling
    have he : Real.exp (-k * b) < Real.exp (-k * a) :=
      Real.exp_lt_exp.mpr (by nlinarith)
    nlinarith [sub_pos.mpr h]
  · intro h t
    unfold newtons_law_cooling
    rw [h]
    ring

/-- Witness for C7 at `T0 = 60`, `Ta = 21`, `k = 1` (and the constant
case at `T0 = Ta = 21`, evaluated at `t = 5`). -/
theorem cooling_monotone_C7_witness :
    newtons_law_cooling 60 21 1 0 = 60 ∧
    StrictAntiOn (newtons_law_cooling 60 21 1) (Set.Ici 0) ∧
    newtons_law_cooling 21 21 1 5 = 21 :=
  ⟨(cooling_monotone_C7 60 21 1 (by norm_num)).1,
   (cooling_monotone_C7 60 21 1 (by norm_num)).2.1 (by norm_num),
   (cooling_monotone_C7 21 21 1 (by norm_num)).2.2.2 rfl 5⟩

/-- The operation `timeToReach` fails whenever
`(Ttarget - Ta) * (T0 - Ta) ≤ 0`, the arithmetic form of "different
signs, or both equal to ambient". -/
lemma timeToReach_error_of_nonpos (T0 Ta k Ttarget : ℝ)
    (h : (Ttarget - Ta) * (T0 - Ta) ≤ 0) :
    timeToReach T0 Ta k Ttarget = Except.error CoolingError.UnreachableTarget := by
  unfold timeToReach
  rw [if_pos]
  rcases lt_trichotomy (Ttarget - Ta) 0 with hA | hA | hA <;>
    rcases lt_trichotomy (T0 - Ta) 0 with hB | hB | hB
  · exact absurd (mul_pos_of_neg_of_neg hA hB) (not_lt.mpr h)
  · left; rw [Real.sign_of_neg hA, hB, Real.sign_zero]; norm_num
  · left; rw [Real.sign_of_neg hA, Real.sign_of_pos hB]; norm_num
  · left; rw [hA, Real.sign_zero, Real.sign_of_neg hB]; norm_num
  · right; exact ⟨sub_eq_zero.mp hA, sub_eq_zero.mp hB⟩
  · left; rw [hA, Real.sign_zero, Real.sign_of_pos hB]; norm_num
  · left; rw [Real.sign_of_pos hA, Real.sign_of_neg hB]; norm_num
  · left; rw [Real.sign_of_pos hA, hB, Real.sign_zero]; norm_num
  · nlinarith

/-- The operation `timeToReach` returns the closed-form inverse whenever
the target and the initial temperature are on the same side of ambient. -/
lemma timeToReach_ok_of_pos (T0 Ta k Ttarget : ℝ)
    (h : 0 < (Ttarget - Ta) * (T0 - Ta)) :
    timeToReach T0 Ta k Ttarget =
      Except.ok (-Real.log ((Ttarget - Ta) / (T0 - Ta)) / k) := by
  unfold timeToReach
  rw [if_neg]
  rintro (hsign | ⟨h1, h2⟩)
  · rcases mul_pos_iff.mp h with ⟨hA, hB⟩ | ⟨hA, hB⟩
    · exact hsign (by rw [Real.sign_of_pos hA, Real.sign_of_pos hB])
    · exact hsign (by rw [Real.sign_of_neg hA, Real.sign_of_neg hB])
  · rw [h1, sub_self, zero_mul] at h
    exact lt_irrefl 0 h

/-- C5: `timeToReach` computes `-ln((Ttarget - Ta)/(T0 - Ta))/k` whenever
the target and the initial temperature are strictly on the same side of
ambient, and fails with `UnreachableTarget` when `(Ttarget - Ta)` and
`(T0 - Ta)` have different signs or are both zero (product `≤ 0`); in
particular `T0 = 21`, `Ta = 21`, `Ttarget = 45` fails. -/
theorem timeToReach_C5 (T0 Ta k Ttarget : ℝ) :
    ((Ttarget - Ta) * (T0 - Ta) ≤ 0 →
      timeToReach T0 Ta k Ttarget = Except.error CoolingError.UnreachableTarget) ∧
    (0 < (Ttarget - Ta) * (T0 - Ta) →
      timeToReach T0 Ta k Ttarget =
        Except.ok (-Real.log ((Ttarget - Ta) / (T0 - Ta)) / k)) ∧
    timeToReach 21 21 k 45 = Except.error CoolingError.UnreachableTarget :=
  ⟨timeToReach_error_of_nonpos T0 Ta k Ttarget,
   timeToReach_ok_of_pos T0 Ta k Ttarget,
   timeToReach_error_of_nonpos 21 21 k 45 (by norm_num)⟩

/-- Witness for C5: the unreachable case at `T0 = Ta = 21`, `target = 45`,
and the reachable case at `T0 = 74`, `Ta = 21`, `target = 45`, both with
`k = 1/50`. -/
theorem timeToReach_C5_witness :
    timeToReach 21 21 (1/50) 45 = Except.error CoolingError.UnreachableTarget ∧
    timeToReach 74 21 (1/50) 45 =
      Except.ok (-Real.log ((45 - 21) / (74 - 21)) / (1/50)) :=
  ⟨(timeToReach_C5 21 21 (1/50) 45).1 (by norm_num),
   (timeToReach_C5 74 21 (1/50) 45).2.1 (by norm_num)⟩

/-- C4: the spec-modelled `equilibrium` fails with `InvalidConfiguration`
when the total heat capacity `Ca + Cb` is zero, and for `Ca + Cb > 0`
returns (purely, with no side effects) exactly the source formula
`calculate_initial_equilibrium`. -/
theorem equilibrium_C4 (A B : ThermalBody) :
    (A.mass * A.specificHeat + B.mass * B.specificHeat = 0 →
      equilibrium A B = Except.error CoolingError.InvalidConfiguration) ∧
    (0 < A.mass * A.specificHeat + B.mass * B.specificHeat →
      equilibrium A B = Except.ok
        (calculate_initial_equilibrium A.temperature A.mass A.specificHeat
          B.temperature B.mass B.specificHeat)) := by
  constructor
  · intro h
    unfold equilibrium
    rw [if_neg (by rw [h]; exact lt_irrefl 0)]
  · intro h
    unfold equilibrium
    rw [if_pos h]
    congr 1
    unfold calculate_initial_equilibrium
    ring

/-- Witness for C4: a zero-capacity pair fails, and a coffee/cup pair with
positive capacities succeeds with the source formula's value. -/
theorem equilibrium_C4_witness :
    equilibrium ⟨90, 0, 1⟩ ⟨20, 0, 1⟩ =
      Except.error CoolingError.InvalidConfiguration ∧
    equilibrium ⟨90, 2, 3⟩ ⟨20, 1, 4⟩ =
      Except.ok (calculate_initial_equilibrium 90 2 3 20 1 4) :=
  ⟨(equilibrium_C4 ⟨90, 0, 1⟩ ⟨20, 0, 1⟩).1 (by norm_num),
   (equilibrium_C4 ⟨90, 2, 3⟩ ⟨20, 1, 4⟩).2 (by norm_num)⟩

/-- C8: with nonnegative heat capacities summing to a positive total, the
equilibrium formula is symmetric in its two bodies and its value lies
between the two temperatures. -/
theorem equilibrium_symm_bounds_C8 (T1 m1 c1 T2 m2 c2 : ℝ)
    (h1 : 0 ≤ m1 * c1) (h2 : 0 ≤ m2 * c2) (hsum : 0 < m1 * c1 + m2 * c2) :
    calculate_initial_equilibrium T1 m1 c1 T2 m2 c2 =
      calculate_initial_equilibrium T2 m2 c2 T1 m1 c1 ∧
    min T1 T2 ≤ calculate_initial_equilibrium T1 m1 c1 T2 m2 c2 ∧
    calculate_initial_equilibrium T1 m1 c1 T2 m2 c2 ≤ max T1 T2 := by
  have hd : 0 < m2 * c2 + m1 * c1 := by linarith
  refine ⟨?_, ?_, ?_⟩
  · unfold calculate_initial_equilibrium
    ring
  · unfold calculate_initial_equilibrium
    rw [le_div_iff₀ hd]
    nlinarith [mul_le_mul_of_nonneg_right (min_le_left T1 T2) h1,
      mul_le_mul_of_nonneg_right (min_le_right T1 T2) h2]
  · unfold calculate_initial_equilibrium
    rw [div_le_iff₀ hd]
    nlinarith [mul_le_mul_of_nonneg_right (le_max_left T1 T2) h1,
      mul_le_mul_of_nonneg_right (le_max_right T1 T2) h2]

/-- Witness for C8 at liquid `(90°C, 2 kg, 3)` and cup `(20°C, 1 kg, 4)`. -/
theorem equilibrium_symm_bounds_C8_witness :
    calculate_initial_equilibrium 90 2 3 20 1 4 =
      calculate_initial_equilibrium 20 1 4 90 2 3 ∧
    min (90:ℝ) 20 ≤ calculate_initial_equilibrium 90 2 3 20 1 4 ∧
    calculate_initial_equilibrium 90 2 3 20 1 4 ≤ max (90:ℝ) 20 :=
  equilibrium_symm_bounds_C8 90 2 3 20 1 4 (by norm_num) (by norm_num) (by norm_num)

/-- Unfolding of `simulate_creamer_addition` in the `len(t_before) == 0`
branch: the whole array is cooled from the volume-weighted mixture of
`T0` and the creamer. -/
lemma simulate_of_before_nil (T0 Ta k T_creamer v_creamer v_coffee t_add : ℝ)
    (t_array : List ℝ)
    (h : t_array.filter (fun t => decide (t ≤ t_add)) = []) :
    simulate_creamer_addition T0 Ta k t_array T_creamer v_creamer v_coffee t_add =
      t_array.map (newtons_law_cooling
        ((v_coffee * T0 + v_creamer * T_creamer) / (v_coffee + v_creamer)) Ta k) := by
  unfold simulate_creamer_addition
  dsimp only
  rw [h]
  rfl

/-- Unfolding of `simulate_creamer_addition` in the nonempty-`before`
branch: cooled prefix, then the after-samples cooled from the
volume-weighted mixture of the value at the last before-sample. -/
lemma simulate_of_getLast (T0 Ta k T_creamer v_creamer v_coffee t_add t_last : ℝ)
    (t_array : List ℝ)
    (h : (t_array.filter (fun t => decide (t ≤ t_add))).getLast? = some t_last) :
    simulate_creamer_addition T0 Ta k t_array T_creamer v_creamer v_coffee t_add =
      (t_array.filter (fun t => decide (t ≤ t_add))).map (newtons_law_cooling T0 Ta k) ++
        (t_array.filter (fun t => decide (t_add < t))).map (fun t =>
          newtons_law_cooling
            ((v_coffee * newtons_law_cooling T0 Ta k t_last + v_creamer * T_creamer) /
              (v_coffee + v_creamer)) Ta k (t - t_add)) := by
  unfold simulate_creamer_addition
  dsimp only
  rw [h]

/-- For a sorted sample list, the `before`/`after` filters of the source's
numpy masks partition the list in order. -/
lemma filter_le_append_filter_gt (t_add : ℝ) (l : List ℝ)
    (hl : l.Sorted (· ≤ ·)) :
    l.filter (fun t => decide (t ≤ t_add)) ++
      l.filter (fun t => decide (t_add < t)) = l := by
  revert hl
  induction l with
  | nil => intro _; simp
  | cons a l ih =>
      intro hl
      rw [List.sorted_cons] at hl
      by_cases hle : a ≤ t_add
      · rw [List.filter_cons, List.filter_cons,
          if_pos (decide_eq_true hle),
          if_neg (by rw [decide_eq_false (not_lt.mpr hle)]; exact Bool.false_ne_true),
          List.cons_append, ih hl.2]
      · push_neg at hle
        have hall : ∀ b ∈ l, t_add < b := fun b hb =>
          lt_of_lt_of_le hle (hl.1 b hb)
        rw [List.filter_cons, List.filter_cons,
          if_neg (by rw [decide_eq_false (not_le.mpr hle)]; exact Bool.false_ne_true),
          if_pos (decide_eq_true hle),
          List.filter_eq_nil_iff.mpr
            (fun b hb => by rw [decide_eq_true_eq]; exact not_le.mpr (hall b hb)),
          List.filter_eq_self.mpr
            (fun b hb => decide_eq_true (hall b hb)),
          List.nil_append]

/-- Being strictly above the left-fold minimum (the embedding of
`np.min`) means being strictly above every element. -/
lemma lt_foldl_min_iff (c : ℝ) (ys : List ℝ) :
    ∀ y0 : ℝ, c < List.foldl min y0 ys ↔ c < y0 ∧ ∀ z ∈ ys, c < z := by
  induction ys with
  | nil => intro y0; simp
  | cons a ys ih =>
      intro y0
      rw [List.foldl_cons, ih (min y0 a)]
      simp only [lt_min_iff, List.forall_mem_cons]
      tauto

/-- For `k > 0`, `t > 0` and ambient below the start, the cooling model
stays strictly between ambient and the starting temperature. -/
lemma newtons_law_cooling_between (x Ta k t : ℝ) (hk : 0 < k) (ht : 0 < t)
    (hx : Ta < x) :
    Ta < newtons_law_cooling x Ta k t ∧ newtons_law_cooling x Ta k t < x := by
  unfold newtons_law_cooling
  have he0 : 0 < Real.exp (-k * t) := Real.exp_pos _
  have he1 : Real.exp (-k * t) < 1 := by
    rw [Real.exp_lt_one_iff]
    nlinarith
  constructor <;> nlinarith

/-- Concrete filter evaluation for the mixing scenario's sample array. -/
lemma filter01_le : ([0, 1] : List ℝ).filter (fun t => decide (t ≤ 1/2)) = [0] := by
  norm_num [List.filter_cons]

/-- Concrete filter evaluation for the mixing scenario's sample array. -/
lemma filter01_gt :
    ([0, 1] : List ℝ).filter (fun t => decide ((1:ℝ)/2 < t)) = [1] := by
  norm_num [List.filter_cons]

/-- C1: with at least one sample at or before the event and at least one
after it, `simulate_creamer_addition` cools the before-samples unmixed,
mixes at the temperature of the last sample `≤ t_add` (no exact sample is
inserted at the event time) by the volume-weighted rule, and cools every
after-sample from that mixture with elapsed time `t - t_add`; concretely,
liquid at 60°C (0.3 L) mixed with additive at 3°C (0.05 L) starts the
post-mix phase at `(0.3·60 + 0.05·3)/0.35 = 363/7 ≈ 51.86`°C, and for
`k > 0` and ambient below it the post-event trajectory decays from that
value toward ambient, below 60°C. -/
theorem simulate_mixing_C1
    (T0 Ta k T_creamer v_creamer v_coffee t_add t_last : ℝ) (t_array : List ℝ)
    (hlast : (t_array.filter (fun t => decide (t ≤ t_add))).getLast? = some t_last)
    (hafter : t_array.filter (fun t => decide (t_add < t)) ≠ []) :
    (simulate_creamer_addition T0 Ta k t_array T_creamer v_creamer v_coffee
        t_add =
      (t_array.filter (fun t => decide (t ≤ t_add))).map
          (newtons_law_cooling T0 Ta k) ++
        (t_array.filter (fun t => decide (t_add < t))).map (fun t =>
          newtons_law_cooling
            ((v_coffee * newtons_law_cooling T0 Ta k t_last +
                v_creamer * T_creamer) / (v_coffee + v_creamer)) Ta k
            (t - t_add))) ∧
    ((0.3 * 60 + 0.05 * 3) / (0.3 + 0.05) = (363 / 7 : ℝ)) ∧
    (simulate_creamer_addition 60 Ta k [0, 1] 3 0.05 0.3 (1/2) =
      [60, newtons_law_cooling (363/7) Ta k (1/2)]) ∧
    (0 < k → Ta < 363/7 →
      Ta < newtons_law_cooling (363/7) Ta k (1/2) ∧
      newtons_law_cooling (363/7) Ta k (1/2) < 363/7) := by
  refine ⟨simulate_of_getLast T0 Ta k T_creamer v_creamer v_coffee t_add t_last
      t_array hlast, by norm_num, ?_, ?_⟩
  · rw [simulate_of_getLast 60 Ta k 3 0.05 0.3 (1/2) 0 [0, 1]
      (by rw [filter01_le]; rfl), filter01_le, filter01_gt]
    rw [List.map_cons, List.map_nil, List.map_cons, List.map_nil,
      newtons_law_cooling_zero]
    norm_num
  · intro hk hTa
    exact newtons_law_cooling_between (363/7) Ta k (1/2) hk (by norm_num) hTa

/-- Witness for C1: the concrete mixing scenario with `Ta = 21`, `k = 1`,
samples `[0, 1]`, event at `1/2`. -/
theorem simulate_mixing_C1_witness :
    (simulate_creamer_addition 60 21 1 [0, 1] 3 0.05 0.3 (1/2) =
      [60, newtons_law_cooling (363/7) 21 1 (1/2)]) ∧
    (21 < newtons_law_cooling (363/7) 21 1 (1/2) ∧
      newtons_law_cooling (363/7) 21 1 (1/2) < 363/7) :=
  ⟨(simulate_mixing_C1 60 21 1 3 0.05 0.3 (1/2) 0 [0, 1]
      (by rw [filter01_le]; rfl) (by rw [filter01_gt]; simp)).2.2.1,
   (simulate_mixing_C1 60 21 1 3 0.05 0.3 (1/2) 0 [0, 1]
      (by rw [filter01_le]; rfl) (by rw [filter01_gt]; simp)).2.2.2
      (by norm_num) (by norm_num)⟩

/-- C2: with the event at time 0 over samples whose minimum is 0, the
post-mix trajectory starts from exactly the equilibrium of `(T0, additive)`
(the source formula with the volumes as masses and unit specific heat):
the sample at 0 is in the `before` set, cooling it for zero elapsed time
returns `T0` exactly, and the full trajectory is produced with no failure
on an empty sample domain. -/
theorem simulate_event_at_zero_C2 (T0 Ta k T_creamer v_creamer v_coffee : ℝ)
    (t_array : List ℝ) (h0 : (0:ℝ) ∈ t_array) (hmin : ∀ t ∈ t_array, 0 ≤ t) :
    simulate_creamer_addition T0 Ta k t_array T_creamer v_creamer v_coffee 0 =
      (t_array.filter (fun t => decide (t ≤ 0))).map
          (newtons_law_cooling T0 Ta k) ++
        (t_array.filter (fun t => decide ((0:ℝ) < t))).map (fun t =>
          newtons_law_cooling
            (calculate_initial_equilibrium T0 v_coffee 1 T_creamer v_creamer 1)
            Ta k (t - 0)) := by
  have hmem : (0:ℝ) ∈ t_array.filter (fun t => decide (t ≤ (0:ℝ))) :=
    List.mem_filter.mpr ⟨h0, by norm_num⟩
  have hbe : t_array.filter (fun t => decide (t ≤ (0:ℝ))) ≠ [] :=
    List.ne_nil_of_mem hmem
  obtain ⟨t_last, hlast⟩ : ∃ a,
      (t_array.filter (fun t => decide (t ≤ (0:ℝ)))).getLast? = some a := by
    cases h : (t_array.filter (fun t => decide (t ≤ (0:ℝ)))).getLast? with
    | none => exact absurd (List.getLast?_eq_none_iff.mp h) hbe
    | some a => exact ⟨a, rfl⟩
  have hlmem : t_last ∈ t_array.filter (fun t => decide (t ≤ (0:ℝ))) :=
    List.mem_of_mem_getLast? hlast
  have hl0 : t_last = 0 := by
    obtain ⟨hmemt, hdec⟩ := List.mem_filter.mp hlmem
    rw [decide_eq_true_eq] at hdec
    exact le_antisymm hdec (hmin t_last hmemt)
  rw [simulate_of_getLast T0 Ta k T_creamer v_creamer v_coffee 0 t_last t_array
    hlast, hl0, newtons_law_cooling_zero]
  have hmix : (v_coffee * T0 + v_creamer * T_creamer) / (v_coffee + v_creamer) =
      calculate_initial_equilibrium T0 v_coffee 1 T_creamer v_creamer 1 := by
    unfold calculate_initial_equilibrium
    ring
  rw [hmix]

/-- Witness for C2: event at time 0 over samples `[0, 1]`. -/
theorem simulate_event_at_zero_C2_witness :
    simulate_creamer_addition 60 21 1 [0, 1] 3 0.05 0.3 0 =
      (([0, 1] : List ℝ).filter (fun t => decide (t ≤ 0))).map
          (newtons_law_cooling 60 21 1) ++
        (([0, 1] : List ℝ).filter (fun t => decide ((0:ℝ) < t))).map (fun t =>
          newtons_law_cooling
            (calculate_initial_equilibrium 60 0.3 1 3 0.05 1) 21 1 (t - 0)) :=
  simulate_event_at_zero_C2 60 21 1 3 0.05 0.3 [0, 1] (by simp)
    (by intro t ht; rcases List.mem_cons.mp ht with h | h
        · rw [h]
        · rw [List.mem_singleton.mp h]; norm_num)

/-- C6: over a sorted sample array, the trajectory returned by
`simulate_creamer_addition` has exactly as many entries as the input has
samples, and the `before`/`after` sample sets to which its two
temperature segments correspond concatenate back to the input array in
its original order. -/
theorem simulate_preserves_samples_C6
    (T0 Ta k T_creamer v_creamer v_coffee t_add : ℝ)
    (t_array : List ℝ) (hs : t_array.Sorted (· ≤ ·)) :
    (simulate_creamer_addition T0 Ta k t_array T_creamer v_creamer v_coffee
        t_add).length = t_array.length ∧
    t_array.filter (fun t => decide (t ≤ t_add)) ++
      t_array.filter (fun t => decide (t_add < t)) = t_array := by
  have hpart := filter_le_append_filter_gt t_add t_array hs
  refine ⟨?_, hpart⟩
  rcases eq_or_ne (t_array.filter (fun t => decide (t ≤ t_add))) [] with hbe | hbe
  · rw [simulate_of_before_nil T0 Ta k T_creamer v_creamer v_coffee t_add t_array hbe,
      List.length_map]
  · obtain ⟨t_last, hlast⟩ : ∃ a,
        (t_array.filter (fun t => decide (t ≤ t_add))).getLast? = some a := by
      cases h : (t_array.filter (fun t => decide (t ≤ t_add))).getLast? with
      | none => exact absurd (List.getLast?_eq_none_iff.mp h) hbe
      | some a => exact ⟨a, rfl⟩
    rw [simulate_of_getLast T0 Ta k T_creamer v_creamer v_coffee t_add t_last
      t_array hlast, List.length_append, List.length_map, List.length_map,
      ← List.length_append, hpart]

/-- Witness for C6 over the sorted samples `[0, 1, 2]` with event at `1/2`. -/
theorem simulate_preserves_samples_C6_witness :
    (simulate_creamer_addition 60 21 1 [0, 1, 2] 3 0.05 0.3 (1/2)).length =
      ([0, 1, 2] : List ℝ).length ∧
    ([0, 1, 2] : List ℝ).filter (fun t => decide (t ≤ (1:ℝ)/2)) ++
      ([0, 1, 2] : List ℝ).filter (fun t => decide ((1:ℝ)/2 < t)) = [0, 1, 2] :=
  simulate_preserves_samples_C6 60 21 1 3 0.05 0.3 (1/2) [0, 1, 2]
    (by norm_num [List.sorted_cons])

/-- C10: when at least one sample is at or before the event time, the
segment of the trajectory at those samples is the unmixed cooling curve —
an expression not mentioning the additive's temperature or volume — and
when every sample is at or before the event time the whole trajectory is
the unmixed cooling curve, so the event has no observable effect. -/
theorem simulate_frame_C10 (T0 Ta k T_creamer v_creamer v_coffee t_add : ℝ)
    (t_array : List ℝ)
    (hne : t_array.filter (fun t => decide (t ≤ t_add)) ≠ []) :
    (simulate_creamer_addition T0 Ta k t_array T_creamer v_creamer v_coffee
        t_add).take (t_array.filter (fun t => decide (t ≤ t_add))).length =
      (t_array.filter (fun t => decide (t ≤ t_add))).map
        (newtons_law_cooling T0 Ta k) ∧
    ((∀ t ∈ t_array, t ≤ t_add) →
      simulate_creamer_addition T0 Ta k t_array T_creamer v_creamer v_coffee
          t_add =
        t_array.map (newtons_law_cooling T0 Ta k)) := by
  obtain ⟨t_last, hlast⟩ : ∃ a,
      (t_array.filter (fun t => decide (t ≤ t_add))).getLast? = some a := by
    cases h : (t_array.filter (fun t => decide (t ≤ t_add))).getLast? with
    | none => exact absurd (List.getLast?_eq_none_iff.mp h) hne
    | some a => exact ⟨a, rfl⟩
  rw [simulate_of_getLast T0 Ta k T_creamer v_creamer v_coffee t_add t_last
    t_array hlast]
  constructor
  · exact List.take_left' (List.length_map _ _)
  · intro hall
    rw [List.filter_eq_self.mpr (fun a ha => decide_eq_true (hall a ha)),
      List.filter_eq_nil_iff.mpr (fun a ha => by
        rw [decide_eq_true_eq]; exact not_lt.mpr (hall a ha)),
      List.map_nil, List.append_nil]

/-- Witness for C10: event at time 2, past both samples `[0, 1]`, so the
whole output is the unmixed curve. -/
theorem simulate_frame_C10_witness :
    (simulate_creamer_addition 60 21 1 [0, 1] 3 0.05 0.3 2).take
        (([0, 1] : List ℝ).filter (fun t => decide (t ≤ (2:ℝ)))).length =
      (([0, 1] : List ℝ).filter (fun t => decide (t ≤ (2:ℝ)))).map
        (newtons_law_cooling 60 21 1) ∧
    simulate_creamer_addition 60 21 1 [0, 1] 3 0.05 0.3 2 =
      ([0, 1] : List ℝ).map (newtons_law_cooling 60 21 1) :=
  ⟨(simulate_frame_C10 60 21 1 3 0.05 0.3 2 [0, 1]
      (by norm_num [List.filter_cons]; simp)).1,
   (simulate_frame_C10 60 21 1 3 0.05 0.3 2 [0, 1]
      (by norm_num [List.filter_cons]; simp)).2
      (by intro t ht; rcases List.mem_cons.mp ht with h | h
          · rw [h]; norm_num
          · rw [List.mem_singleton.mp h]; norm_num)⟩

/-- C3: on a nonempty trajectory (times and temperatures of equal length),
`find_crossing_time` returns `none` exactly when the minimum temperature
in the window is strictly above the target (equivalently, every sample
is), and returns the time of the first sample in order whose temperature
is at most the target. -/
theorem find_crossing_C3 (t y : List ℝ) (target : ℝ) (hne : y ≠ [])
    (hlen : t.length = y.length) :
    (find_crossing_time t y target = none ↔ ∀ yi ∈ y, target < yi) ∧
    (∀ i, ∀ hi : i < y.length, ∀ hit : i < t.length,
      y.get ⟨i, hi⟩ ≤ target →
      (∀ j, ∀ hj : j < y.length, j < i → target < y.get ⟨j, hj⟩) →
      find_crossing_time t y target = some (t.get ⟨i, hit⟩)) := by
  cases y with
  | nil => exact absurd rfl hne
  | cons y0 ys =>
      constructor
      · by_cases hg : target < List.foldl min y0 ys
        · rw [show find_crossing_time t (y0 :: ys) target = none by
            unfold find_crossing_time; dsimp only; rw [if_pos hg]]
          obtain ⟨h1, h2⟩ := (lt_foldl_min_iff target ys y0).mp hg
          simp only [true_iff]
          exact List.forall_mem_cons.mpr ⟨h1, h2⟩
        · have hex : ∃ x ∈ y0 :: ys, (fun yi => decide (yi ≤ target)) x = true := by
            have hg2 : ¬(target < y0 ∧ ∀ z ∈ ys, target < z) := fun hc =>
              hg ((lt_foldl_min_iff target ys y0).mpr hc)
            rcases not_and_or.mp hg2 with h | h
            · exact ⟨y0, List.mem_cons_self y0 ys, decide_eq_true (not_lt.mp h)⟩
            · push_neg at h
              obtain ⟨z, hz, hzt⟩ := h
              exact ⟨z, List.mem_cons_of_mem y0 hz, decide_eq_true hzt⟩
          have hidx : (y0 :: ys).findIdx (fun yi => decide (yi ≤ target)) <
              (y0 :: ys).length := List.findIdx_lt_length_of_exists hex
          have hidxt : (y0 :: ys).findIdx (fun yi => decide (yi ≤ target)) <
              t.length := by rw [hlen]; exact hidx
          rw [show find_crossing_time t (y0 :: ys) target =
              t[(y0 :: ys).findIdx (fun yi => decide (yi ≤ target))]? by
            unfold find_crossing_time; dsimp only; rw [if_neg hg]]
          rw [List.getElem?_eq_getElem hidxt]
          constructor
          · intro hc; exact absurd hc (by simp)
          · intro hall
            obtain ⟨x, hx, hpx⟩ := hex
            rw [decide_eq_true_eq] at hpx
            exact absurd (hall x hx) (not_lt.mpr hpx)
      · intro i hi hit hyi hprev
        have hg : ¬ target < List.foldl min y0 ys := by
          intro hg
          obtain ⟨h1, h2⟩ := (lt_foldl_min_iff target ys y0).mp hg
          have hy : ∀ z ∈ y0 :: ys, target < z :=
            List.forall_mem_cons.mpr ⟨h1, h2⟩
          exact absurd hyi
            (not_le.mpr (hy ((y0 :: ys).get ⟨i, hi⟩) (List.get_mem _ i hi)))
        rw [show find_crossing_time t (y0 :: ys) target =
            t[(y0 :: ys).findIdx (fun yi => decide (yi ≤ target))]? by
          unfold find_crossing_time; dsimp only; rw [if_neg hg]]
        have hfi : (y0 :: ys).findIdx (fun yi => decide (yi ≤ target)) = i := by
          rw [List.findIdx_eq hi]
          constructor
          · rw [List.get_eq_getElem] at hyi
            exact decide_eq_true hyi
          · intro j hji
            have hjlen : j < (y0 :: ys).length := lt_trans hji hi
            have hj := hprev j hjlen hji
            rw [List.get_eq_getElem] at hj
            exact decide_eq_false (not_le.mpr hj)
        rw [hfi, List.getElem?_eq_getElem hit, List.get_eq_getElem]

/-- Witness for C3: on times `[0, 1, 2]` and temperatures `[50, 46, 44]`,
target 45 is first crossed at time 2, and target 43 is never reached. -/
theorem find_crossing_C3_witness :
    find_crossing_time [0, 1, 2] [50, 46, 44] 45 = some 2 ∧
    find_crossing_time [0, 1, 2] [50, 46, 44] 43 = none :=
  ⟨(find_crossing_C3 [0, 1, 2] [50, 46, 44] 45 (by simp) rfl).2 2
      (by norm_num) (by norm_num)
      (by show (44:ℝ) ≤ 45; norm_num)
      (by intro j hj hji
          interval_cases j
          · show (45:ℝ) < 50; norm_num
          · show (45:ℝ) < 46; norm_num),
   (find_crossing_C3 [0, 1, 2] [50, 46, 44] 43 (by simp) rfl).1.mpr
      (by intro yi hyi
          rcases List.mem_cons.mp hyi with h | h
          · rw [h]; norm_num
          rcases List.mem_cons.mp h with h2 | h2
          · rw [h2]; norm_num
          · rw [List.mem_singleton.mp h2]; norm_num)⟩

end CoffeeAnalysis
